import Mathlib

/-!
Verification of the client-context configuration core of
`crates/next-core/src/next_client/context.rs`: the condition-driven
configuration cascade (resolve-options and module-options trees), the
runtime-entry sequencer, the chunking-context builder, and the
compile-time define / free-variable tables.

Filesystem paths are embedded as a filesystem identity plus a list of
path segments, mirroring `turbo_tasks_fs::FileSystemPath` (a filesystem
handle plus a path string).  External collaborator values (import maps,
webpack-loader options, module rules, environments, …) are embedded as
opaque handles; their contents never influence the verified properties.
-/

namespace NextClient

/-- The distinct filesystems appearing in the client context construction:
the project disk filesystem and the three embedded virtual filesystems
(`next_js_fs`, `turbopack_ecmascript_runtime::embed_fs`,
`turbopack_node::embed_js::embed_fs`), plus the client output root used by
the chunking context. -/
inductive FileSystemId where
  | project
  | nextJsFs
  | tpEcmascriptRuntimeFs
  | tpNodeFs
  | clientRoot
deriving DecidableEq, Repr

/-- A filesystem path: filesystem identity plus path segments, as in
`turbo_tasks_fs::FileSystemPath`. -/
structure FileSystemPath where
  fs : FileSystemId
  path : List String
deriving DecidableEq, Repr

/-- Splitting a character list at a separator (the semantics of Rust's
`str::split(sep)`: the empty string yields one empty segment, adjacent
separators yield empty segments). -/
def splitCharsOn (sep : Char) : List Char → List (List Char)
  | [] => [[]]
  | c :: rest =>
      let r := splitCharsOn sep rest
      if c = sep then [] :: r
      else
        match r with
        | s :: ss => (c :: s) :: ss
        | [] => [[c]]

/-- Splitting a string into `/`-separated path segments. -/
def pathSegs (s : String) : List String :=
  (splitCharsOn '/' s.toList).map String.mk

/-- `FileSystemPath::join`: appending a (possibly multi-segment) suffix. -/
def FileSystemPath.join (p : FileSystemPath) (s : String) : FileSystemPath :=
  ⟨p.fs, p.path ++ pathSegs s⟩

/-- `FileSystemPath::root`: the root of the same filesystem. -/
def FileSystemPath.fsRoot (p : FileSystemPath) : FileSystemPath :=
  ⟨p.fs, []⟩

/-- Modelled from the spec: the path-containment primitive
`is_under(root, candidate)` consumed from the filesystem abstraction
(§6): the candidate must live on the same filesystem and share the root
path as a prefix at path-segment granularity. -/
def isUnder (root p : FileSystemPath) : Bool :=
  root.fs == p.fs && root.path.isPrefixOf p.path

/-- `turbopack_core::condition::ContextCondition` (the constructors used by
this core): a path-containment predicate or a disjunction of conditions. -/
inductive ContextCondition where
  | inPath (root : FileSystemPath)
  | any (conds : List ContextCondition)

mutual
/-- Modelled from the spec: condition evaluation (§4.1;
`turbopack_core::condition` is not under src).  `InPath` is the
normalized-path containment test, `Any` is logical OR over its children. -/
def condMatches (p : FileSystemPath) : ContextCondition → Bool
  | ContextCondition.inPath root => isUnder root p
  | ContextCondition.any conds => condMatchesAny p conds

/-- OR over a list of conditions (the `Any` combinator body). -/
def condMatchesAny (p : FileSystemPath) : List ContextCondition → Bool
  | [] => false
  | c :: cs => condMatches p c || condMatchesAny p cs
end

/-- A configuration node (spec §3): own settings plus an ordered list of
condition-guarded children.  Both `ResolveOptionsContext` and
`ModuleOptionsContext` instantiate this shape through their `rules`
field. -/
inductive ConfigNode (S : Type) where
  | mk (own : S) (rules : List (ContextCondition × ConfigNode S))

/-- The node's own settings. -/
def ConfigNode.own {S : Type} : ConfigNode S → S
  | .mk o _ => o

/-- The node's ordered condition-guarded children. -/
def ConfigNode.rules {S : Type} : ConfigNode S → List (ContextCondition × ConfigNode S)
  | .mk _ r => r

mutual
/-- Modelled from the spec: configuration resolution (§4.2; the rule
application lives in turbopack's module-options machinery, not under
src).  Iterate children in listed order; on the first matching condition
recurse into that child; if no child matches return `own`. -/
def resolve {S : Type} : ConfigNode S → FileSystemPath → S
  | .mk own rules, p => resolveRules own p rules

/-- First-match-wins scan over a node's children (§4.2). -/
def resolveRules {S : Type} (own : S) (p : FileSystemPath) :
    List (ContextCondition × ConfigNode S) → S
  | [] => own
  | (c, child) :: rest =>
      if condMatches p c then resolve child p else resolveRules own p rest
end

theorem resolve_mk {S : Type} (own : S) (rules : List (ContextCondition × ConfigNode S))
    (p : FileSystemPath) : resolve (ConfigNode.mk own rules) p = resolveRules own p rules := by
  simp [resolve]

theorem resolveRules_nil {S : Type} (own : S) (p : FileSystemPath) :
    resolveRules own p ([] : List (ContextCondition × ConfigNode S)) = own := by
  simp [resolveRules]

theorem resolveRules_cons {S : Type} (own : S) (p : FileSystemPath)
    (c : ContextCondition) (child : ConfigNode S)
    (rest : List (ContextCondition × ConfigNode S)) :
    resolveRules own p ((c, child) :: rest) =
      if condMatches p c then resolve child p else resolveRules own p rest := by
  simp [resolveRules]

/-- Fallback property: when no child condition matches, resolution returns
the node's own settings (it never fails to produce a settings record). -/
theorem resolve_of_no_match {S : Type} (n : ConfigNode S) (p : FileSystemPath)
    (h : ∀ r ∈ n.rules, condMatches p r.1 = false) : resolve n p = n.own := by
  obtain ⟨own, rules⟩ := n
  rw [resolve_mk]
  simp only [ConfigNode.own, ConfigNode.rules] at *
  induction rules with
  | nil => exact resolveRules_nil own p
  | cons hd tl ih =>
      obtain ⟨c, child⟩ := hd
      rw [resolveRules_cons]
      rw [h ⟨c, child⟩ (List.mem_cons_self _ _)]
      simp only [Bool.false_eq_true, if_false]
      exact ih fun r hr => h r (List.mem_cons_of_mem _ hr)

/-! ## Opaque handles for external collaborator values

The following types stand for values produced by collaborators outside
this core (import maps, webpack-loader option sets, module rules,
environments, execution contexts, tree-shaking modes, …).  Their contents
are irrelevant here; only their identity flows through the configuration
records, so they are embedded as opaque handles. -/

/-- Opaque handle: an import map (`get_next_client_import_map` et al.). -/
abbrev ImportMap := Nat

/-- Opaque handle: a resolved map (`get_next_client_resolved_map`). -/
abbrev ResolvedMap := Nat

/-- Opaque handle: webpack-loader options (`webpack_loader_options`). -/
abbrev WebpackLoadersOptions := Nat

/-- Opaque handle: a source-transform module rule (`ModuleRule`). -/
abbrev ModuleRule := Nat

/-- Opaque handle: a tree-shaking mode (`TreeShakingMode`). -/
abbrev TreeShakingMode := Nat

/-- Opaque handle: MDX transform options (`next_config.mdx_rs()`). -/
abbrev MdxRsOptions := Nat

/-- Opaque handle: the build environment (`Environment`). -/
abbrev Environment := Nat

/-- Opaque handle: the execution context (`ExecutionContext`). -/
abbrev ExecutionContext := Nat

/-- Opaque handle: the postcss package mapping
(`get_postcss_package_mapping`). -/
abbrev PostCssPackageMapping := Nat

/-- Opaque handle: decorator transform options
(`get_decorators_transform_options`). -/
abbrev DecoratorsOptions := Nat

/-- `turbopack::module_options::TypescriptTransformOptions`; only its
`Default` value is distinguished by this core (the embedded-assets branch
uses the default options instead of the project-derived ones). -/
structure TypescriptTransformOptions where
  useDefineForClassFields : Bool := false
deriving DecidableEq, Repr

/-- `turbopack::module_options::JsxTransformOptions`; only its `Default`
value is distinguished by this core. -/
structure JsxTransformOptions where
  development : Bool := false
  reactRefresh : Bool := false
  importSource : Option String := none
  runtime : Option String := none
deriving DecidableEq, Repr

/-- `turbopack::module_options::TypeofWindow`. -/
inductive TypeofWindow where
  | object
  | undefined
deriving DecidableEq, Repr

/-- `PostCssConfigLocation` (turbopack_node postcss transform). -/
inductive PostCssConfigLocation where
  | projectPath
  | projectPathOrLocalPath
deriving DecidableEq, Repr

/-- `PostCssTransformOptions` — the fields set by this core. -/
structure PostCssTransformOptions where
  postcssPackage : Option PostCssPackageMapping := none
  configLocation : PostCssConfigLocation := .projectPath
deriving DecidableEq, Repr

/-- `turbopack::module_options::EcmascriptOptionsContext` — the fields set
by this core. -/
structure EcmascriptOptionsContext where
  enableTypeofWindowInlining : Option TypeofWindow := none
  enableJsx : Option JsxTransformOptions := none
  enableTypescriptTransform : Option TypescriptTransformOptions := none
  enableDecorators : Option DecoratorsOptions := none
deriving DecidableEq, Repr

/-- `turbopack::module_options::CssOptionsContext` — the field set by this
core. -/
structure CssOptionsContext where
  useSwcCss : Bool := false
deriving DecidableEq, Repr

/-- The own-settings record of `ModuleOptionsContext` (its `rules` field is
carried by the surrounding `ConfigNode`). -/
structure ModuleOptionsSettings where
  ecmascript : EcmascriptOptionsContext := {}
  css : CssOptionsContext := {}
  enableWebpackLoaders : Option WebpackLoadersOptions := none
  enableMdxRs : Option MdxRsOptions := none
  enablePostcssTransform : Option PostCssTransformOptions := none
  presetEnvVersions : Option Environment := none
  executionContext : Option ExecutionContext := none
  treeShakingMode : Option TreeShakingMode := none
  sideEffectFreePackages : List String := []
  moduleRules : List ModuleRule := []
deriving DecidableEq, Repr

/-- The next.js embedded virtual filesystem (`embed_js::next_js_fs`). -/
def next_js_fs_root : FileSystemPath := ⟨.nextJsFs, []⟩

/-- The turbopack ecmascript runtime embedded filesystem
(`turbopack_ecmascript_runtime::embed_fs`). -/
def tp_ecmascript_runtime_fs_root : FileSystemPath := ⟨.tpEcmascriptRuntimeFs, []⟩

/-- The turbopack node embedded filesystem
(`turbopack_node::embed_js::embed_fs`). -/
def tp_node_fs_root : FileSystemPath := ⟨.tpNodeFs, []⟩

/-- `internal_assets_conditions` (context.rs:182-188): any of the three
embedded-filesystem roots. -/
def internal_assets_conditions : ContextCondition :=
  ContextCondition.any [
    ContextCondition.inPath next_js_fs_root,
    ContextCondition.inPath tp_ecmascript_runtime_fs_root,
    ContextCondition.inPath tp_node_fs_root]

/-- Modelled from the spec: `util::foreign_code_context_condition` is not
under src.  The spec describes it as the path predicate selecting the
foreign-code (vendored dependency) region — containment in the dependency
directory under the project root. -/
def foreign_code_context_condition (project_path : FileSystemPath) : ContextCondition :=
  ContextCondition.inPath (project_path.join "node_modules")

/-- The external-collaborator inputs consumed by
`get_client_module_options_context` (each produced by a function outside
this core and treated as opaque: tsconfig-derived transform options, jsx
options, decorators, webpack-loader option sets, tree-shaking modes,
transform rule lists, …). -/
structure ModuleOptionsInputs where
  tsconfig : TypescriptTransformOptions
  decoratorsOptions : DecoratorsOptions
  jsxRuntimeOptions : JsxTransformOptions
  enableMdxRs : Option MdxRsOptions
  foreignEnableWebpackLoaders : Option WebpackLoadersOptions
  enableWebpackLoaders : Option WebpackLoadersOptions
  treeShakingModeForUserCode : Option TreeShakingMode
  treeShakingModeForForeignCode : Option TreeShakingMode
  useSwcCss : Bool
  nextClientRules : List ModuleRule
  foreignNextClientRules : List ModuleRule
  additionalRules : List ModuleRule
  postcssPackage : PostCssPackageMapping
  sideEffectFreePackages : List String

/-- `get_client_module_options_context` (context.rs:190-347): builds the
client transform configuration tree — a base settings record, a
foreign-code child derived from the pre-final base, an embedded-assets
child (default TypeScript and JSX transform options) derived from the
pre-final base, and a final root carrying the two condition-guarded
children in that order. -/
def get_client_module_options_context (project_path : FileSystemPath)
    (execution_context : ExecutionContext) (env : Environment)
    (inp : ModuleOptionsInputs) : ConfigNode ModuleOptionsSettings :=
  let postcss_transform_options : PostCssTransformOptions :=
    { postcssPackage := some inp.postcssPackage,
      configLocation := .projectPathOrLocalPath }
  let postcss_foreign_transform_options : PostCssTransformOptions :=
    { postcss_transform_options with configLocation := .projectPath }
  let module_options_context : ModuleOptionsSettings :=
    { ecmascript := { enableTypeofWindowInlining := some .object },
      presetEnvVersions := some env,
      executionContext := some execution_context,
      treeShakingMode := inp.treeShakingModeForUserCode,
      enablePostcssTransform := some postcss_transform_options,
      sideEffectFreePackages := inp.sideEffectFreePackages }
  let foreign_codes_options_context : ModuleOptionsSettings :=
    { module_options_context with
      ecmascript := { module_options_context.ecmascript with
        enableTypeofWindowInlining := none },
      enableWebpackLoaders := inp.foreignEnableWebpackLoaders,
      enablePostcssTransform := some postcss_foreign_transform_options,
      moduleRules := inp.foreignNextClientRules,
      treeShakingMode := inp.treeShakingModeForForeignCode }
  let internal_context : ModuleOptionsSettings :=
    { module_options_context with
      ecmascript := { module_options_context.ecmascript with
        enableTypescriptTransform := some {},
        enableJsx := some {} } }
  let root_context : ModuleOptionsSettings :=
    { module_options_context with
      ecmascript := { module_options_context.ecmascript with
        enableJsx := some inp.jsxRuntimeOptions,
        enableTypescriptTransform := some inp.tsconfig,
        enableDecorators := some inp.decoratorsOptions },
      enableWebpackLoaders := inp.enableWebpackLoaders,
      enableMdxRs := inp.enableMdxRs,
      css := { module_options_context.css with useSwcCss := inp.useSwcCss },
      moduleRules := inp.nextClientRules ++ inp.additionalRules }
  ConfigNode.mk root_context [
    (foreign_code_context_condition project_path,
      ConfigNode.mk foreign_codes_options_context []),
    (internal_assets_conditions,
      ConfigNode.mk internal_context [])]

/-- The embedded-assets settings: the own settings of the internal-assets
child of the client module-options tree — the base settings with the
default TypeScript transform options and the default JSX options. -/
def embedded_assets_settings (execution_context : ExecutionContext)
    (env : Environment) (inp : ModuleOptionsInputs) : ModuleOptionsSettings :=
  { ecmascript := { enableTypeofWindowInlining := some .object,
                    enableTypescriptTransform := some {},
                    enableJsx := some {} },
    presetEnvVersions := some env,
    executionContext := some execution_context,
    treeShakingMode := inp.treeShakingModeForUserCode,
    enablePostcssTransform := some { postcssPackage := some inp.postcssPackage,
                                     configLocation := .projectPathOrLocalPath },
    sideEffectFreePackages := inp.sideEffectFreePackages }

/-- The resolve plugins wired into the client resolve-options context
(context.rs:158-165); their behaviour is external, only their identity and
order matter here. -/
inductive ResolvePlugin where
  | invalidServerOnly (projectPath : FileSystemPath)
  | moduleFeatureReport (projectPath : FileSystemPath)
  | nextFontLocal (projectPath : FileSystemPath)
  | nextSharedRuntime (projectPath : FileSystemPath)
deriving DecidableEq, Repr

/-- The own-settings record of `ResolveOptionsContext` (its `rules` field
is carried by the surrounding `ConfigNode`). -/
structure ResolveOptionsSettings where
  enableNodeModules : Option FileSystemPath := none
  customConditions : List String := []
  importMap : Option ImportMap := none
  fallbackImportMap : Option ImportMap := none
  resolvedMap : Option ResolvedMap := none
  browser : Bool := false
  module : Bool := false
  beforeResolvePlugins : List ResolvePlugin := []
  afterResolvePlugins : List ResolvePlugin := []
  enableTypescript : Bool := false
  enableReact : Bool := false
  enableMjsExtension : Bool := false
  customExtensions : List String := []
deriving DecidableEq, Repr

/-- `mode::NextMode`; the mode type lives outside src.  Modelled from the
spec: a mode flag whose development variant indicates a development
session. -/
inductive NextMode where
  | development
  | build
deriving DecidableEq, Repr

/-- `NextMode::is_development`. -/
def NextMode.is_development : NextMode → Bool
  | .development => true
  | .build => false

/-- Modelled from the spec: `NextMode::condition`, the custom resolve
condition string contributed by the mode (contents irrelevant to this
core). -/
def NextMode.condition : NextMode → String
  | .development => "development"
  | .build => "production"

/-- The external-collaborator inputs consumed by
`get_client_resolve_options_context` (import maps, resolved map, custom
extensions from the next config). -/
structure ResolveOptionsInputs where
  nextClientImportMap : ImportMap
  nextClientFallbackImportMap : ImportMap
  nextClientResolvedMap : ResolvedMap
  customExtensions : List String

/-- `get_client_resolve_options_context` (context.rs:136-180): an inner
settings record (node-modules root, mode condition, import maps, plugin
chains), and a root extending it with typescript/react/mjs flags and
custom extensions, carrying the inner record as the single
foreign-code-guarded child. -/
def get_client_resolve_options_context (project_path : FileSystemPath)
    (mode : NextMode) (inp : ResolveOptionsInputs) :
    ConfigNode ResolveOptionsSettings :=
  let custom_conditions : List String := [mode.condition]
  let module_options_context : ResolveOptionsSettings :=
    { enableNodeModules := some project_path.fsRoot,
      customConditions := custom_conditions,
      importMap := some inp.nextClientImportMap,
      fallbackImportMap := some inp.nextClientFallbackImportMap,
      resolvedMap := some inp.nextClientResolvedMap,
      browser := true,
      module := true,
      beforeResolvePlugins := [
        .invalidServerOnly project_path,
        .moduleFeatureReport project_path,
        .nextFontLocal project_path],
      afterResolvePlugins := [.nextSharedRuntime project_path] }
  let root_context : ResolveOptionsSettings :=
    { module_options_context with
      enableTypescript := true,
      enableReact := true,
      enableMjsExtension := true,
      customExtensions := inp.customExtensions }
  ConfigNode.mk root_context [
    (foreign_code_context_condition project_path,
      ConfigNode.mk module_options_context [])]

/-- `ClientContextType` (context.rs:127-134). -/
inductive ClientContextType where
  | pages (pagesDir : FileSystemPath)
  | app (appDir : FileSystemPath)
  | fallback
  | other
deriving DecidableEq, Repr

/-- Whether the target type is the application-directory variant
(`matches!(*ty, ClientContextType::App { .. })`). -/
def ClientContextType.isApp : ClientContextType → Bool
  | .app _ => true
  | _ => false

/-- A resolve pattern (`turbopack_core::resolve::pattern::Pattern`) — only
the constant variant is used by this core. -/
inductive Pattern where
  | constant (s : String)
deriving DecidableEq, Repr

/-- A module request (`turbopack_core::resolve::parse::Request`).
`parse` is the request obtained by parsing a pattern; `resolved` stands
for a request produced elsewhere (e.g. by the React Refresh capability
probe). -/
inductive Request where
  | parse (p : Pattern)
  | resolved (id : Nat)
deriving DecidableEq, Repr

/-- `RuntimeEntry` — the variant produced by this core:
`RuntimeEntry::Request(request, resolution base path)`. -/
inductive RuntimeEntry where
  | request (r : Request) (basePath : FileSystemPath)
deriving DecidableEq, Repr

/-- The fixed app bootstrap request
(`next/dist/client/app-next-turbopack.js`). -/
def app_bootstrap_request : Request :=
  Request.parse (Pattern.constant "next/dist/client/app-next-turbopack.js")

/-- `get_client_runtime_entries` (context.rs:385-425).  The React Refresh
capability probe (`assert_can_resolve_react_refresh(...).as_request()`,
an external collaborator consulted only in development mode) is passed in
as `refresh_probe`: `some r` when the hot-reload support module resolves
to request `r`, `none` when it is not resolvable.  In development mode a
resolvable probe pushes the refresh entry first; an App target then
pushes the fixed bootstrap entry. -/
def get_client_runtime_entries (project_root : FileSystemPath)
    (ty : ClientContextType) (mode : NextMode)
    (refresh_probe : Option Request) : List RuntimeEntry :=
  let refresh_entries : List RuntimeEntry :=
    if mode.is_development then
      match refresh_probe with
      | some request => [RuntimeEntry.request request (project_root.join "_")]
      | none => []
    else []
  let app_entries : List RuntimeEntry :=
    if ty.isApp then
      [RuntimeEntry.request app_bootstrap_request (project_root.join "_")]
    else []
  refresh_entries ++ app_entries

/-- Opaque handle: module-id assignment strategy (`ModuleIdStrategy`). -/
abbrev ModuleIdStrategy := Nat

/-- Modelled from the spec: `MinifyType` selected by
`NextMode::minify_type` (mode.rs is not under src); build mode minifies,
development does not. -/
inductive MinifyType where
  | minify
  | noMinify
deriving DecidableEq, Repr

/-- Modelled from the spec: `NextMode::minify_type`. -/
def NextMode.minify_type : NextMode → MinifyType
  | .development => .noMinify
  | .build => .minify

/-- Modelled from the spec: the chunking runtime type selected by
`NextMode::runtime_type` (mode.rs is not under src). -/
inductive RuntimeType where
  | development
  | production
deriving DecidableEq, Repr

/-- Modelled from the spec: `NextMode::runtime_type`. -/
def NextMode.runtime_type : NextMode → RuntimeType
  | .development => .development
  | .build => .production

/-- Modelled from the spec: the chunking settings assembled by
`BrowserChunkingContext::builder` (§4.4; turbopack_browser is not under
src): root path, output roots, optional prefix pair, minify mode,
module-id strategy, runtime type and the boolean hot-reload flag. -/
structure BrowserChunkingContext where
  projectPath : FileSystemPath
  outputRoot : FileSystemPath
  clientRoot : FileSystemPath
  chunkRoot : FileSystemPath
  assetRoot : FileSystemPath
  environment : Environment
  runtimeType : RuntimeType
  chunkBasePath : Option String := none
  assetBasePath : Option String := none
  minifyType : MinifyType := .minify
  moduleIdStrategy : Option ModuleIdStrategy := none
  hotModuleReplacement : Bool := false
deriving DecidableEq, Repr

/-- Modelled from the spec: the fluent builder for the chunking settings
(§4.4): it accumulates the same fields and `build()` freezes them into
the immutable `BrowserChunkingContext` value. -/
structure BrowserChunkingContextBuilder where
  ctx : BrowserChunkingContext

/-- Modelled from the spec: `BrowserChunkingContext::builder` — the
builder seeded from the positional arguments, with hot-reload off. -/
def BrowserChunkingContext.builder (project_path output_root client_root
    chunk_root asset_root : FileSystemPath) (environment : Environment)
    (runtime_type : RuntimeType) : BrowserChunkingContextBuilder :=
  ⟨{ projectPath := project_path, outputRoot := output_root,
     clientRoot := client_root, chunkRoot := chunk_root,
     assetRoot := asset_root, environment := environment,
     runtimeType := runtime_type }⟩

/-- Builder setter: chunk base path. -/
def BrowserChunkingContextBuilder.chunk_base_path
    (b : BrowserChunkingContextBuilder) (p : Option String) :
    BrowserChunkingContextBuilder :=
  ⟨{ b.ctx with chunkBasePath := p }⟩

/-- Builder setter: asset base path. -/
def BrowserChunkingContextBuilder.asset_base_path
    (b : BrowserChunkingContextBuilder) (p : Option String) :
    BrowserChunkingContextBuilder :=
  ⟨{ b.ctx with assetBasePath := p }⟩

/-- Builder setter: minify type. -/
def BrowserChunkingContextBuilder.minify_type
    (b : BrowserChunkingContextBuilder) (m : MinifyType) :
    BrowserChunkingContextBuilder :=
  ⟨{ b.ctx with minifyType := m }⟩

/-- Builder setter: module-id strategy. -/
def BrowserChunkingContextBuilder.module_id_strategy
    (b : BrowserChunkingContextBuilder) (s : ModuleIdStrategy) :
    BrowserChunkingContextBuilder :=
  ⟨{ b.ctx with moduleIdStrategy := some s }⟩

/-- Builder setter: enable hot module replacement. -/
def BrowserChunkingContextBuilder.hot_module_replacement
    (b : BrowserChunkingContextBuilder) : BrowserChunkingContextBuilder :=
  ⟨{ b.ctx with hotModuleReplacement := true }⟩

/-- Builder terminal step: `build()` publishes the accumulated settings as
the immutable chunking-context value. -/
def BrowserChunkingContextBuilder.build (b : BrowserChunkingContextBuilder) :
    BrowserChunkingContext :=
  b.ctx

/-- `get_client_assets_path` (context.rs:380-383). -/
def get_client_assets_path (client_root : FileSystemPath) : FileSystemPath :=
  client_root.join "static/media"

/-- `get_client_chunking_context` (context.rs:349-378): seeds the builder,
applies the setters, enables hot module replacement exactly in
development mode, and builds. -/
def get_client_chunking_context (project_path client_root : FileSystemPath)
    ( asset_prefix : Option String) (environment : Environment)
    (mode : NextMode) (module_id_strategy : ModuleIdStrategy) :
    BrowserChunkingContext :=
  let builder :=
    ((((BrowserChunkingContext.builder project_path client_root client_root
        (client_root.join "static/chunks")
        (get_client_assets_path client_root)
        environment mode.runtime_type).chunk_base_path
          asset_prefix).minify_type mode.minify_type).asset_base_path
            asset_prefix).module_id_strategy module_id_strategy
  let builder :=
    if mode.is_development then builder.hot_module_replacement else builder
  builder.build

/-! ## Compile-time define table (context.rs:66-106) -/

/-- `CompileTimeDefineValue`: a literal value tagged as boolean, string,
or opaque JSON literal. -/
inductive CompileTimeDefineValue where
  | bool (b : Bool)
  | string (s : String)
  | json (s : String)
deriving DecidableEq, Repr

/-- JSON whitespace accepted around a top-level literal. -/
def jsonWs (c : Char) : Bool :=
  c = ' ' || c = '\t' || c = '\n' || c = '\r'

/-- Strip JSON whitespace from both ends of a candidate literal. -/
def trimJson (s : String) : List Char :=
  ((s.toList.dropWhile jsonWs).reverse.dropWhile jsonWs).reverse

/-- Modelled from the spec: recognising a valid boolean literal (§4.6; the
literal parse is performed by serde_json, an external collaborator). -/
def parseJsonBool (s : String) : Option Bool :=
  let t := trimJson s
  if t = "true".toList then some true
  else if t = "false".toList then some false
  else none

/-- Value of a hexadecimal digit. -/
def hexVal (c : Char) : Option Nat :=
  if '0' ≤ c ∧ c ≤ '9' then some (c.toNat - '0'.toNat)
  else if 'a' ≤ c ∧ c ≤ 'f' then some (c.toNat - 'a'.toNat + 10)
  else if 'A' ≤ c ∧ c ≤ 'F' then some (c.toNat - 'A'.toNat + 10)
  else none

/-- Modelled from the spec: the body of a valid quoted-string literal
(§4.6): characters up to an unescaped closing quote which must end the
input, with the standard JSON escapes (astral-plane surrogate-pair
escapes are outside the modelled literal class and fall back to the
opaque classification). -/
def parseStringBody : List Char → Option (List Char)
  | '"' :: rest => if rest.isEmpty then some [] else none
  | '\\' :: '"' :: rest => (parseStringBody rest).map (List.cons '"')
  | '\\' :: '\\' :: rest => (parseStringBody rest).map (List.cons '\\')
  | '\\' :: '/' :: rest => (parseStringBody rest).map (List.cons '/')
  | '\\' :: 'n' :: rest => (parseStringBody rest).map (List.cons '\n')
  | '\\' :: 't' :: rest => (parseStringBody rest).map (List.cons '\t')
  | '\\' :: 'r' :: rest => (parseStringBody rest).map (List.cons '\r')
  | '\\' :: 'b' :: rest => (parseStringBody rest).map (List.cons '\x08')
  | '\\' :: 'f' :: rest => (parseStringBody rest).map (List.cons '\x0c')
  | '\\' :: 'u' :: h1 :: h2 :: h3 :: h4 :: rest =>
      match hexVal h1, hexVal h2, hexVal h3, hexVal h4 with
      | some a, some b, some c, some d =>
          let n := ((a * 16 + b) * 16 + c) * 16 + d
          if 0xD800 ≤ n ∧ n ≤ 0xDFFF then none
          else (parseStringBody rest).map (List.cons (Char.ofNat n))
      | _, _, _, _ => none
  | '\\' :: _ => none
  | c :: rest =>
      if c.toNat < 0x20 then none
      else (parseStringBody rest).map (List.cons c)
  | [] => none

/-- Modelled from the spec: recognising a valid quoted-string literal
(§4.6). -/
def parseJsonString (s : String) : Option String :=
  match trimJson s with
  | '"' :: rest => (parseStringBody rest).map fun l => String.mk l
  | _ => none

/-- The value classification of `defines` (context.rs:73-78): a value
parsing as a JSON boolean literal becomes `Bool`, one parsing as a JSON
string literal becomes `String`, everything else (numbers, objects,
unparsable text) is retained as the opaque `JSON` literal preserving the
original text. -/
def classify (v : String) : CompileTimeDefineValue :=
  match parseJsonBool v with
  | some b => .bool b
  | none =>
      match parseJsonString v with
      | some s => .string s
      | none => .json v

/-- `k.split('.')` (context.rs:71): the dotted segment path of a key. -/
def splitKey (k : String) : List String :=
  (splitCharsOn '.' k.toList).map String.mk

/-- First-entry lookup in an ordered key/value table (IndexMap lookup). -/
def lookupTable {V : Type} : List (List String × V) → List String → Option V
  | [], _ => none
  | e :: rest, k => if e.1 = k then some e.2 else lookupTable rest k

/-- The loop of `defines` (context.rs:69-80): the environment map is
embedded as its ordered key/value sequence (IndexMap iteration order);
`entry(..).or_insert_with(..)` appends a new entry only when the segment
path is absent — first write wins. -/
def definesFrom (tbl : List (List String × CompileTimeDefineValue)) :
    List (String × String) → List (List String × CompileTimeDefineValue)
  | [] => tbl
  | kv :: rest =>
      let key := splitKey kv.1
      if (lookupTable tbl key).isSome then definesFrom tbl rest
      else definesFrom (tbl ++ [(key, classify kv.2)]) rest

/-- `defines` (context.rs:66-83): the compile-time define table built from
an environment map. -/
def defines (define_env : List (String × String)) :
    List (List String × CompileTimeDefineValue) :=
  definesFrom [] define_env

/-- `FreeVarReference` — the variants used by this core: a define value,
or a module-export reference. -/
inductive FreeVarReference where
  | value (v : CompileTimeDefineValue)
  | ecmaScriptModule (request : String) (lookupPath : Option String)
      (exportName : Option String)
deriving DecidableEq, Repr

/-- The fixed `Buffer` free-variable reference (context.rs:94-98). -/
def buffer_free_var : FreeVarReference :=
  .ecmaScriptModule "node:buffer" none (some "Buffer")

/-- The fixed `process` free-variable reference (context.rs:99-103). -/
def process_free_var : FreeVarReference :=
  .ecmaScriptModule "node:process" none (some "default")

/-- IndexMap-style insert: an existing key keeps its position and its
value is replaced; a new key is appended. -/
def tableInsert {V : Type} : List (List String × V) → List String → V →
    List (List String × V)
  | [], k, v => [(k, v)]
  | e :: rest, k, v =>
      if e.1 = k then (k, v) :: rest else e :: tableInsert rest k v

/-- `next_client_free_vars` (context.rs:90-106).  The
`free_var_references!` expansion (turbopack_core, not under src) is
modelled from the spec: the define table is merged with the two fixed
free-variable substitutions `Buffer` and `process` (§4.6). -/
def next_client_free_vars (define_env : List (String × String)) :
    List (List String × FreeVarReference) :=
  tableInsert
    (tableInsert
      ((defines define_env).map (fun e => (e.1, FreeVarReference.value e.2)))
      ["Buffer"] buffer_free_var)
    ["process"] process_free_var

/-! ## Table lemmas -/

theorem lookupTable_append {V : Type} (tbl : List (List String × V))
    (k sp : List String) (v : V) :
    lookupTable (tbl ++ [(k, v)]) sp =
      match lookupTable tbl sp with
      | some w => some w
      | none => if k = sp then some v else none := by
  induction tbl with
  | nil => simp [lookupTable]
  | cons e rest ih =>
      by_cases h : e.1 = sp <;> simp [lookupTable, h, ih]

theorem lookupTable_isSome_iff {V : Type} (tbl : List (List String × V))
    (k : List String) :
    (lookupTable tbl k).isSome = true ↔ k ∈ tbl.map Prod.fst := by
  induction tbl with
  | nil => simp [lookupTable]
  | cons e rest ih =>
      simp only [lookupTable, List.map_cons, List.mem_cons]
      by_cases h : e.1 = k
      · rw [if_pos h]
        simp only [Option.isSome_some]
        exact ⟨fun _ => Or.inl h.symm, fun _ => trivial⟩
      · rw [if_neg h]
        constructor
        · intro hh
          exact Or.inr (ih.mp hh)
        · intro hh
          rcases hh with hh | hh
          · exact absurd hh.symm h
          · exact ih.mpr hh

theorem lookupTable_map {V W : Type} (f : V → W)
    (tbl : List (List String × V)) (sp : List String) :
    lookupTable (tbl.map (fun e => (e.1, f e.2))) sp =
      (lookupTable tbl sp).map f := by
  induction tbl with
  | nil => simp [lookupTable]
  | cons e rest ih =>
      by_cases h : e.1 = sp <;> simp [lookupTable, h, ih]

theorem lookupTable_tableInsert_self {V : Type}
    (tbl : List (List String × V)) (k : List String) (v : V) :
    lookupTable (tableInsert tbl k v) k = some v := by
  induction tbl with
  | nil => simp [tableInsert, lookupTable]
  | cons e rest ih =>
      by_cases h : e.1 = k <;> simp [tableInsert, lookupTable, h, ih]

theorem lookupTable_tableInsert_other {V : Type}
    (tbl : List (List String × V)) (k sp : List String) (v : V)
    (h : sp ≠ k) :
    lookupTable (tableInsert tbl k v) sp = lookupTable tbl sp := by
  have hks : ¬ k = sp := fun hh => h hh.symm
  induction tbl with
  | nil => simp [tableInsert, lookupTable, hks]
  | cons e rest ih =>
      by_cases he : e.1 = k
      · simp [tableInsert, lookupTable, he, hks]
      · by_cases hsp : e.1 = sp <;>
          simp [tableInsert, lookupTable, he, hsp, h, ih]

theorem tableInsert_of_absent {V : Type} (tbl : List (List String × V))
    (k : List String) (v : V) (h : lookupTable tbl k = none) :
    tableInsert tbl k v = tbl ++ [(k, v)] := by
  induction tbl with
  | nil => simp [tableInsert]
  | cons e rest ih =>
      by_cases he : e.1 = k
      · simp [lookupTable, he] at h
      · simp [lookupTable, he] at h
        simp [tableInsert, he, ih h]

theorem definesFrom_lookup (env : List (String × String)) :
    ∀ (tbl : List (List String × CompileTimeDefineValue)) (sp : List String),
    lookupTable (definesFrom tbl env) sp =
      match lookupTable tbl sp with
      | some v => some v
      | none =>
          (env.find? (fun kv => splitKey kv.1 == sp)).map
            (fun kv => classify kv.2) := by
  induction env with
  | nil =>
      intro tbl sp
      cases h : lookupTable tbl sp <;> simp [definesFrom, h]
  | cons kv rest ih =>
      intro tbl sp
      by_cases hk : (lookupTable tbl (splitKey kv.1)).isSome
      · rw [show definesFrom tbl (kv :: rest) = definesFrom tbl rest by
          simp [definesFrom, hk]]
        rw [ih tbl sp]
        cases h : lookupTable tbl sp with
        | some v => simp
        | none =>
            by_cases hsp : splitKey kv.1 = sp
            · subst hsp
              rw [h] at hk
              simp at hk
            · have hb : (splitKey kv.1 == sp) = false := by simp [hsp]
              simp [List.find?, hb]
      · rw [show definesFrom tbl (kv :: rest) =
            definesFrom (tbl ++ [(splitKey kv.1, classify kv.2)]) rest by
          simp [definesFrom, hk]]
        rw [ih _ sp]
        rw [lookupTable_append]
        cases h : lookupTable tbl sp with
        | some v => simp
        | none =>
            by_cases hsp : splitKey kv.1 = sp
            · have hb : (splitKey kv.1 == sp) = true := by simp [hsp]
              simp [List.find?, hb, hsp]
            · have hb : (splitKey kv.1 == sp) = false := by simp [hsp]
              simp [List.find?, hb, hsp]

theorem defines_lookup (env : List (String × String)) (sp : List String) :
    lookupTable (defines env) sp =
      (env.find? (fun kv => splitKey kv.1 == sp)).map
        (fun kv => classify kv.2) := by
  rw [defines, definesFrom_lookup env [] sp]
  simp [lookupTable]

theorem definesFrom_keys_nodup (env : List (String × String)) :
    ∀ (tbl : List (List String × CompileTimeDefineValue)),
    (tbl.map Prod.fst).Nodup → ((definesFrom tbl env).map Prod.fst).Nodup := by
  induction env with
  | nil => intro tbl h; simpa [definesFrom] using h
  | cons kv rest ih =>
      intro tbl h
      by_cases hk : (lookupTable tbl (splitKey kv.1)).isSome
      · rw [show definesFrom tbl (kv :: rest) = definesFrom tbl rest by
          simp [definesFrom, hk]]
        exact ih tbl h
      · rw [show definesFrom tbl (kv :: rest) =
            definesFrom (tbl ++ [(splitKey kv.1, classify kv.2)]) rest by
          simp [definesFrom, hk]]
        apply ih
        have hmem : splitKey kv.1 ∉ tbl.map Prod.fst := by
          intro hm
          exact hk ((lookupTable_isSome_iff tbl _).mpr hm)
        simp only [List.map_append, List.map_cons, List.map_nil]
        have hdisj : (tbl.map Prod.fst).Disjoint [splitKey kv.1] := by
          intro a ha hb
          rw [List.mem_singleton] at hb
          exact hmem (hb ▸ ha)
        exact List.Nodup.append h (List.nodup_singleton _) hdisj

theorem defines_keys_nodup (env : List (String × String)) :
    ((defines env).map Prod.fst).Nodup :=
  definesFrom_keys_nodup env [] (by simp)

theorem countP_beq_eq_one_of_nodup_mem {α : Type} [BEq α] [LawfulBEq α]
    (l : List α) (hn : l.Nodup) (a : α) (hm : a ∈ l) :
    l.countP (fun x => x == a) = 1 := by
  induction l with
  | nil => simp at hm
  | cons b rest ih =>
      rw [List.nodup_cons] at hn
      rw [List.countP_cons]
      rcases List.mem_cons.mp hm with rfl | hmr
      · have hz : rest.countP (fun x => x == a) = 0 := by
          rw [List.countP_eq_zero]
          intro x hx
          simp only [beq_iff_eq]
          intro hxa
          exact hn.1 (hxa ▸ hx)
        simp [hz]
      · have hba : ¬ b = a := by
          intro hba
          exact hn.1 (hba ▸ hmr)
        rw [ih hn.2 hmr]
        simp [hba]

/-! ## Claim theorems -/

/-- Helper: a path on a filesystem other than the project filesystem never
matches the foreign-code condition rooted in the project tree. -/
theorem foreign_cond_no_match_of_fs (projSegs : List String) (p : FileSystemPath)
    (hfs : p.fs ≠ .project) :
    condMatches p (foreign_code_context_condition ⟨.project, projSegs⟩) = false := by
  have hb : (FileSystemId.project == p.fs) = false := by
    cases hp : p.fs <;> simp_all
  simp [foreign_code_context_condition, condMatches, isUnder, FileSystemPath.join, hb]

/-- C1: every path inside one of the embedded-internal-assets roots
resolves, in the client module-options tree, to the embedded-assets
settings (default TypeScript transform options and default JSX options),
regardless of whether it also lies inside the foreign-code root. -/
theorem c1_embedded_assets_resolution (projSegs : List String)
    (execution_context : ExecutionContext) (env : Environment)
    (inp : ModuleOptionsInputs) (p : FileSystemPath)
    (h : condMatches p internal_assets_conditions = true) :
    resolve (get_client_module_options_context ⟨.project, projSegs⟩
        execution_context env inp) p =
      embedded_assets_settings execution_context env inp := by
  have hfs : p.fs ≠ .project := by
    intro hc
    simp [internal_assets_conditions, condMatches, condMatchesAny, isUnder,
      next_js_fs_root, tp_ecmascript_runtime_fs_root, tp_node_fs_root, hc] at h
  have hforeign := foreign_cond_no_match_of_fs projSegs p hfs
  simp only [get_client_module_options_context]
  rw [resolve_mk, resolveRules_cons, hforeign]
  simp only [Bool.false_eq_true, if_false]
  rw [resolveRules_cons, h]
  simp only [if_true]
  rw [resolve_mk, resolveRules_nil]
  rfl

/-- Witness for C1 at a concrete embedded-assets path. -/
theorem c1_embedded_assets_resolution_witness :
    condMatches ⟨.nextJsFs, ["entry.js"]⟩ internal_assets_conditions = true ∧
    resolve (get_client_module_options_context ⟨.project, ["my-app"]⟩ 0 0
        ⟨{}, 0, {}, none, none, none, none, none, false, [], [], [], 0, []⟩)
      ⟨.nextJsFs, ["entry.js"]⟩ =
      embedded_assets_settings 0 0
        ⟨{}, 0, {}, none, none, none, none, none, false, [], [], [], 0, []⟩ :=
  ⟨by decide,
   c1_embedded_assets_resolution ["my-app"] 0 0
     ⟨{}, 0, {}, none, none, none, none, none, false, [], [], [], 0, []⟩
     ⟨.nextJsFs, ["entry.js"]⟩ (by decide)⟩

/-- C8: a path matching neither the foreign-code condition nor the
embedded-internal-assets condition resolves, in both built client trees,
to the root node's own settings; and in general resolution bottoms out at
`own` whenever no child condition matches. -/
theorem c8_fallback_to_own (projSegs : List String) (mode : NextMode)
    (rinp : ResolveOptionsInputs) (execution_context : ExecutionContext)
    (env : Environment) (minp : ModuleOptionsInputs) (p : FileSystemPath)
    (hf : condMatches p (foreign_code_context_condition ⟨.project, projSegs⟩) = false)
    (hi : condMatches p internal_assets_conditions = false) :
    resolve (get_client_module_options_context ⟨.project, projSegs⟩
        execution_context env minp) p =
      (get_client_module_options_context ⟨.project, projSegs⟩
        execution_context env minp).own ∧
    resolve (get_client_resolve_options_context ⟨.project, projSegs⟩ mode rinp) p =
      (get_client_resolve_options_context ⟨.project, projSegs⟩ mode rinp).own ∧
    (∀ (S : Type) (n : ConfigNode S) (q : FileSystemPath),
      (∀ r ∈ n.rules, condMatches q r.1 = false) → resolve n q = n.own) := by
  refine ⟨?_, ?_, fun S n q hq => resolve_of_no_match n q hq⟩
  · apply resolve_of_no_match
    intro r hr
    simp only [get_client_module_options_context, ConfigNode.rules, List.mem_cons,
      List.not_mem_nil, or_false] at hr
    rcases hr with rfl | rfl
    · simpa using hf
    · simpa using hi
  · apply resolve_of_no_match
    intro r hr
    simp only [get_client_resolve_options_context, ConfigNode.rules, List.mem_cons,
      List.not_mem_nil, or_false] at hr
    rcases hr with rfl
    simpa using hf

/-- Witness for C8 at a concrete first-party path. -/
theorem c8_fallback_to_own_witness :
    condMatches ⟨.project, ["my-app", "src", "page.tsx"]⟩
      (foreign_code_context_condition ⟨.project, ["my-app"]⟩) = false ∧
    condMatches ⟨.project, ["my-app", "src", "page.tsx"]⟩
      internal_assets_conditions = false ∧
    resolve (get_client_resolve_options_context ⟨.project, ["my-app"]⟩ .development
        ⟨0, 0, 0, []⟩) ⟨.project, ["my-app", "src", "page.tsx"]⟩ =
      (get_client_resolve_options_context ⟨.project, ["my-app"]⟩ .development
        ⟨0, 0, 0, []⟩).own :=
  ⟨by decide, by decide,
   (c8_fallback_to_own ["my-app"] .development ⟨0, 0, 0, []⟩ 0 0
     ⟨{}, 0, {}, none, none, none, none, none, false, [], [], [], 0, []⟩
     ⟨.project, ["my-app", "src", "page.tsx"]⟩ (by decide) (by decide)).2.1⟩

/-- C9: every child of both built client configuration trees carries an
empty `rules` list of its own — the cascade has depth at most 2. -/
theorem c9_children_no_grandchildren (project_path : FileSystemPath)
    (mode : NextMode) (rinp : ResolveOptionsInputs)
    (execution_context : ExecutionContext) (env : Environment)
    (minp : ModuleOptionsInputs) :
    ((get_client_module_options_context project_path execution_context env
        minp).rules.all (fun r => r.2.rules.isEmpty)) = true ∧
    ((get_client_resolve_options_context project_path mode rinp).rules.all
      (fun r => r.2.rules.isEmpty)) = true := by
  constructor <;> rfl

/-- C3: in development mode with a succeeding capability probe and an App
target, the runtime entries are exactly [refresh entry, app bootstrap
entry] in that order; outside development mode the refresh entry is
absent regardless of the probe result. -/
theorem c3_runtime_entry_ordering :
    (∀ (project_root appDir : FileSystemPath) (r : Request),
      get_client_runtime_entries project_root (.app appDir) .development (some r) =
        [RuntimeEntry.request r (project_root.join "_"),
         RuntimeEntry.request app_bootstrap_request (project_root.join "_")]) ∧
    (∀ (project_root : FileSystemPath) (ty : ClientContextType) (mode : NextMode)
      (probe : Option Request), mode.is_development = false →
      get_client_runtime_entries project_root ty mode probe =
        if ty.isApp then
          [RuntimeEntry.request app_bootstrap_request (project_root.join "_")]
        else []) := by
  constructor
  · intro project_root appDir r
    rfl
  · intro project_root ty mode probe h
    simp [get_client_runtime_entries, h]

/-- Witness for C3: outside development mode the probe result is ignored. -/
theorem c3_runtime_entry_ordering_witness :
    NextMode.build.is_development = false ∧
    get_client_runtime_entries ⟨.project, []⟩ (.app ⟨.project, ["app"]⟩) .build
        (some (.resolved 7)) =
      (if ClientContextType.isApp (.app ⟨.project, ["app"]⟩) then
        [RuntimeEntry.request app_bootstrap_request
          (FileSystemPath.join ⟨.project, []⟩ "_")]
      else []) :=
  ⟨by decide,
   c3_runtime_entry_ordering.2 ⟨.project, []⟩ (.app ⟨.project, ["app"]⟩) .build
     (some (.resolved 7)) (by decide)⟩

/-- C5: in development mode with an unresolvable hot-reload support module
the refresh entry is simply omitted — a list is still returned and the
remaining entries are exactly those produced when the probe succeeds,
minus the leading refresh entry. -/
theorem c5_refresh_unavailable_non_fatal :
    (∀ (project_root : FileSystemPath) (ty : ClientContextType),
      get_client_runtime_entries project_root ty .development none =
        if ty.isApp then
          [RuntimeEntry.request app_bootstrap_request (project_root.join "_")]
        else []) ∧
    (∀ (project_root : FileSystemPath) (ty : ClientContextType) (r : Request),
      get_client_runtime_entries project_root ty .development (some r) =
        RuntimeEntry.request r (project_root.join "_") ::
          get_client_runtime_entries project_root ty .development none) := by
  constructor
  · intro project_root ty
    rfl
  · intro project_root ty r
    rfl

/-- C10: the runtime entry list never has more than two entries, and is
empty outside development mode for non-App targets. -/
theorem c10_length_bound :
    (∀ (project_root : FileSystemPath) (ty : ClientContextType) (mode : NextMode)
      (probe : Option Request),
      (get_client_runtime_entries project_root ty mode probe).length ≤ 2) ∧
    (∀ (project_root : FileSystemPath) (ty : ClientContextType) (mode : NextMode)
      (probe : Option Request), mode.is_development = false → ty.isApp = false →
      get_client_runtime_entries project_root ty mode probe = []) := by
  constructor
  · intro project_root ty mode probe
    cases mode <;> cases ty <;> cases probe <;>
      simp [get_client_runtime_entries, NextMode.is_development,
        ClientContextType.isApp]
  · intro project_root ty mode probe h1 h2
    simp [get_client_runtime_entries, h1, h2]

/-- Witness for C10 at a concrete non-development, non-App input. -/
theorem c10_length_bound_witness :
    NextMode.build.is_development = false ∧
    ClientContextType.other.isApp = false ∧
    get_client_runtime_entries ⟨.project, []⟩ .other .build
      (some (.resolved 3)) = [] :=
  ⟨by decide, by decide,
   c10_length_bound.2 ⟨.project, []⟩ .other .build (some (.resolved 3))
     (by decide) (by decide)⟩

/-- C7: the hot-module-replacement flag of the built chunking settings is
enabled exactly when the mode is a development mode, and `build()`
publishes the accumulated settings unchanged (the built value is
immutable). -/
theorem c7_hmr_iff_development :
    (∀ (project_path client_root : FileSystemPath) ( asset_prefix : Option String)
      (environment : Environment) (mode : NextMode) (mis : ModuleIdStrategy),
      (get_client_chunking_context project_path client_root asset_prefix
        environment mode mis).hotModuleReplacement = mode.is_development) ∧
    (∀ b : BrowserChunkingContextBuilder, b.build = b.ctx) := by
  constructor
  · intro project_path client_root asset_prefix environment mode mis
    cases mode <;> rfl
  · intro b
    rfl

/-- C2: the define table is first-write-wins — the entry for a segment
path is classified from its first occurrence in the environment map, the
table has at most one entry per segment path (exactly one when the path
occurs), and the duplicate `FOO.BAR` mapping yields boolean true. -/
theorem c2_defines_first_write_wins :
    (∀ (define_env : List (String × String)) (sp : List String),
      lookupTable (defines define_env) sp =
        (define_env.find? (fun kv => splitKey kv.1 == sp)).map
          (fun kv => classify kv.2)) ∧
    (∀ (define_env : List (String × String)) (sp : List String),
      (∃ kv ∈ define_env, splitKey kv.1 = sp) →
      (defines define_env).countP (fun e => e.1 == sp) = 1) ∧
    defines [("FOO.BAR", "true"), ("FOO.BAR", "false")] =
      [(["FOO", "BAR"], .bool true)] := by
  refine ⟨fun define_env sp => defines_lookup define_env sp, ?_, by decide⟩
  intro define_env sp hex
  have hnodup := defines_keys_nodup define_env
  have hmem : sp ∈ (defines define_env).map Prod.fst := by
    rw [← lookupTable_isSome_iff]
    rw [defines_lookup]
    obtain ⟨kv, hkv, hsp⟩ := hex
    have : (define_env.find? (fun kv => splitKey kv.1 == sp)).isSome := by
      rw [List.find?_isSome]
      exact ⟨kv, hkv, by simp [hsp]⟩
    obtain ⟨w, hw⟩ := Option.isSome_iff_exists.mp this
    simp [hw]
  calc (defines define_env).countP (fun e => e.1 == sp)
      = ((defines define_env).map Prod.fst).countP (fun a => a == sp) := by
        rw [List.countP_map]
        rfl
    _ = 1 := countP_beq_eq_one_of_nodup_mem _ hnodup sp hmem

/-- Witness for C2 on the duplicate `FOO.BAR` environment. -/
theorem c2_defines_first_write_wins_witness :
    (∃ kv ∈ [("FOO.BAR", "true"), ("FOO.BAR", "false")],
      splitKey kv.1 = ["FOO", "BAR"]) ∧
    (defines [("FOO.BAR", "true"), ("FOO.BAR", "false")]).countP
      (fun e => e.1 == ["FOO", "BAR"]) = 1 :=
  ⟨by decide,
   c2_defines_first_write_wins.2.1 [("FOO.BAR", "true"), ("FOO.BAR", "false")]
     ["FOO", "BAR"] (by decide)⟩

/-- C4: classification is total — every key of the environment map gets an
entry in the define table, every value classifies as a boolean, a string,
or the opaque literal preserving the original text, and the concrete
values classify as the spec states. -/
theorem c4_classification_total :
    (∀ (define_env : List (String × String)) (kv : String × String),
      kv ∈ define_env →
      ∃ d, lookupTable (defines define_env) (splitKey kv.1) = some d) ∧
    (∀ v : String, (∃ b, classify v = .bool b) ∨
      (∃ s, classify v = .string s) ∨ classify v = .json v) ∧
    classify "true" = .bool true ∧
    classify "\"hello\"" = .string "hello" ∧
    classify "42" = .json "42" ∧
    classify "\x7b\"a\":1\x7d" = .json "\x7b\"a\":1\x7d" := by
  refine ⟨?_, ?_, by decide, by decide, by decide, by decide⟩
  · intro define_env kv hkv
    rw [defines_lookup]
    have : (define_env.find? (fun e => splitKey e.1 == splitKey kv.1)).isSome := by
      rw [List.find?_isSome]
      exact ⟨kv, hkv, by simp⟩
    obtain ⟨w, hw⟩ := Option.isSome_iff_exists.mp this
    exact ⟨classify w.2, by simp [hw]⟩
  · intro v
    unfold classify
    cases hb : parseJsonBool v with
    | some b => exact Or.inl ⟨b, rfl⟩
    | none =>
        cases hs : parseJsonString v with
        | some s => exact Or.inr (Or.inl ⟨s, rfl⟩)
        | none => exact Or.inr (Or.inr rfl)

/-- Witness for C4 on a singleton environment. -/
theorem c4_classification_total_witness :
    (("FOO.BAR", "true") ∈ [("FOO.BAR", "true")]) ∧
    ∃ d, lookupTable (defines [("FOO.BAR", "true")])
      (splitKey "FOO.BAR") = some d :=
  ⟨by decide,
   c4_classification_total.1 [("FOO.BAR", "true")] ("FOO.BAR", "true")
     (by decide)⟩

/-- C6: the free-variable table is the define table extended with exactly
the two fixed entries `Buffer ↦ (node:buffer, Buffer)` and
`process ↦ (node:process, default)`: both fixed entries are present, all
other segment paths look up to their define-table classification, and
when the environment defines neither `Buffer` nor `process` the table is
literally the define table with the two entries appended. -/
theorem c6_free_vars_extends_defines :
    (∀ define_env : List (String × String),
      lookupTable (next_client_free_vars define_env) ["Buffer"] =
        some buffer_free_var ∧
      lookupTable (next_client_free_vars define_env) ["process"] =
        some process_free_var) ∧
    (∀ (define_env : List (String × String)) (sp : List String),
      sp ≠ ["Buffer"] → sp ≠ ["process"] →
      lookupTable (next_client_free_vars define_env) sp =
        (lookupTable (defines define_env) sp).map .value) ∧
    (∀ define_env : List (String × String),
      lookupTable (defines define_env) ["Buffer"] = none →
      lookupTable (defines define_env) ["process"] = none →
      next_client_free_vars define_env =
        (defines define_env).map (fun e => (e.1, FreeVarReference.value e.2)) ++
          [(["Buffer"], buffer_free_var), (["process"], process_free_var)]) := by
  refine ⟨?_, ?_, ?_⟩
  · intro define_env
    constructor
    · rw [next_client_free_vars,
        lookupTable_tableInsert_other _ _ _ _ (by decide),
        lookupTable_tableInsert_self]
    · rw [next_client_free_vars, lookupTable_tableInsert_self]
  · intro define_env sp h1 h2
    rw [next_client_free_vars,
      lookupTable_tableInsert_other _ _ _ _ h2,
      lookupTable_tableInsert_other _ _ _ _ h1,
      lookupTable_map]
  · intro define_env h1 h2
    have hmB : lookupTable
        ((defines define_env).map (fun e => (e.1, FreeVarReference.value e.2)))
        ["Buffer"] = none := by
      rw [lookupTable_map, h1]
      rfl
    have hmP : lookupTable
        ((defines define_env).map (fun e => (e.1, FreeVarReference.value e.2)))
        ["process"] = none := by
      rw [lookupTable_map, h2]
      rfl
    have hP2 : lookupTable
        ((defines define_env).map (fun e => (e.1, FreeVarReference.value e.2)) ++
          [(["Buffer"], buffer_free_var)]) ["process"] = none := by
      rw [lookupTable_append, hmP]
      simp
    rw [next_client_free_vars, tableInsert_of_absent _ _ _ hmB,
      tableInsert_of_absent _ _ _ hP2, List.append_assoc]
    rfl

/-- Witness for C6 on a singleton environment defining neither global. -/
theorem c6_free_vars_extends_defines_witness :
    (["FOO"] : List String) ≠ ["Buffer"] ∧ (["FOO"] : List String) ≠ ["process"] ∧
    lookupTable (next_client_free_vars [("FOO", "true")]) ["FOO"] =
      (lookupTable (defines [("FOO", "true")]) ["FOO"]).map .value ∧
    lookupTable (defines [("FOO", "true")]) ["Buffer"] = none ∧
    lookupTable (defines [("FOO", "true")]) ["process"] = none ∧
    next_client_free_vars [("FOO", "true")] =
      (defines [("FOO", "true")]).map (fun e => (e.1, FreeVarReference.value e.2)) ++
        [(["Buffer"], buffer_free_var), (["process"], process_free_var)] :=
  ⟨by decide, by decide,
   c6_free_vars_extends_defines.2.1 [("FOO", "true")] ["FOO"]
     (by decide) (by decide),
   by decide, by decide,
   c6_free_vars_extends_defines.2.2 [("FOO", "true")] (by decide) (by decide)⟩

end NextClient
